import Mathlib

/-!
# Verification of the `init_before_foo` clippy lint

Shallow embedding of `src/clippy_lints/src/init_before_foo.rs`: a whole-program
checker that every reachable call to the gated operation (`foo`, a diagnostic
item) is preceded on every path from the entry point (`check_main`) by a call
to the initializer (`init`).

The walker (`check_init` / `check_init_inner`), the dataflow transfer functions
(`statement_effect`, `terminator_effect`) and the driver (`check_crate`) are
translated from the source.  The dataflow *runtime* (join, fixpoint iteration,
cursor) lives in rustc's `do_dataflow` framework, outside this repository, and
is modelled from the spec (§4.2) where marked.

The Rust `&mut FxHashSet<DefId>` call stack is embedded by explicit state
passing: `check_init` takes the stack and returns the final stack alongside the
verdict.  Recursion is fueled; fuel exhaustion yields `none`, and a theorem
shows sufficient fuel (one more than the number of program functions not on the
stack) never exhausts.
-/

set_option autoImplicit false

namespace InitBeforeFoo

/-- A function id (`DefId` in the source); the program is a list of functions
indexed by position. -/
abbrev FunId := Nat

/-- An opaque source location identifier (`Span` in the source). -/
abbrev Span := Nat

/-- A non-call statement: opaque to the analysis (`statement_effect` is the
identity in the source). -/
inductive Stmt
  | nonCall
deriving DecidableEq, Repr

/-- Callee reference of a `Call` terminator: `Known` (MIR `ty::FnDef`) or
`Unknown` (function pointer / dynamic call, the `_` arm of the match on
`func.ty(..).kind` in the source). -/
inductive CalleeRef
  | known : FunId → CalleeRef
  | unknown : CalleeRef
deriving DecidableEq, Repr

/-- Block terminator (MIR `TerminatorKind`, restricted per the spec data model
to `Call`, `Branch`, `Goto`, `Return`).  A `call` records its callee, its
source span (`terminator.source_info.span`) and its destination block. -/
inductive Terminator
  | call (callee : CalleeRef) (span : Span) (target : Nat)
  | branch (targets : List Nat)
  | goto (target : Nat)
  | ret
deriving DecidableEq, Repr

/-- A basic block: opaque non-call statements followed by one terminator. -/
structure BasicBlock where
  stmts : List Stmt
  term : Terminator
deriving DecidableEq, Repr

/-- A function: the three diagnostic-item tags (`init`, `foo`, `check_main`)
and an optional body (`none` models `!tcx.is_mir_available`). -/
structure Function where
  is_initializer : Bool
  is_gated : Bool
  is_entry : Bool
  body : Option (List BasicBlock)
deriving DecidableEq, Repr

/-- A whole program: the immutable program model. -/
structure Program where
  funs : List Function

/-- Look a function up by id. -/
def Program.getFun (P : Program) (f : FunId) : Option Function :=
  P.funs[f]?

/-- `tcx.is_diagnostic_item(sym!(init), f)`. -/
def Program.isInitializerFun (P : Program) (f : FunId) : Bool :=
  match P.getFun f with
  | some fn => fn.is_initializer
  | none => false

/-- `tcx.is_diagnostic_item(sym!(foo), f)`. -/
def Program.isGatedFun (P : Program) (f : FunId) : Bool :=
  match P.getFun f with
  | some fn => fn.is_gated
  | none => false

/-- `tcx.get_diagnostic_item(sym!(check_main))`: the (first) entry point. -/
def Program.entryPoint (P : Program) : Option FunId :=
  (List.range P.funs.length).find? (fun i =>
    match P.getFun i with
    | some fn => fn.is_entry
    | none => false)

/-- The verdict of analyzing one function (`enum InitState` in the source):
`Init` = establishes initialization, `NotInit` = no information,
`NeedsInit spans` = violation with call chain, innermost first. -/
inductive InitState
  | Init
  | NotInit
  | NeedsInit (spans : List Span)
deriving DecidableEq, Repr

/-! ## Control-flow graph -/

/-- Successor blocks of a terminator. -/
def Terminator.succs : Terminator → List Nat
  | .call _ _ t => [t]
  | .branch ts => ts
  | .goto t => [t]
  | .ret => []

/-- Predecessor blocks of block `b` inside a body. -/
def preds (blocks : List BasicBlock) (b : Nat) : List Nat :=
  (List.range blocks.length).filter (fun p =>
    match blocks[p]? with
    | some bb => bb.term.succs.contains b
    | none => false)

/-! ## Dataflow transfer functions (source `impl BitDenotation for SeenInit`) -/

/-- Source `SeenInit::statement_effect`: empty body, identity transfer. -/
def statement_effect (_s : Stmt) (fact : Bool) : Bool := fact

/-- Source `SeenInit::terminator_effect`: on a `Call` with a statically known
callee, recursively evaluate the callee on a *clone* of the captured call
stack (the returned stack is discarded) and gen the fact exactly when the
verdict is `Init`; every other terminator, and `Unknown` callees, never gen.
Returns `none` when the nested evaluation ran out of fuel. -/
def terminator_effect (eval : FunId → List FunId → Option (InitState × List FunId))
    (stack : List FunId) (t : Terminator) : Option Bool :=
  match t with
  | .call (.known c) _ _ =>
    match eval c stack with
    | none => none
    | some (.Init, _) => some true
    | some (_, _) => some false
  | _ => some false

/-- The gen bit of every block of a body, in block order. -/
def block_gens (eval : FunId → List FunId → Option (InitState × List FunId))
    (stack : List FunId) : List BasicBlock → Option (List Bool)
  | [] => some []
  | bb :: rest =>
    match terminator_effect eval stack bb.term, block_gens eval stack rest with
    | some g, some gs => some (g :: gs)
    | _, _ => none

/-! ## Dataflow fixpoint

Modelled from the spec: the join and fixpoint iteration live in rustc's
`do_dataflow` runtime, not in this repository.  Spec §4.2 prescribes a forward
*must* analysis — the fact on entry to a block with several predecessors is
the logical AND over the predecessors' exit facts — with the entry block's
incoming fact `false`, and §9 treats predecessor-less (unreachable) blocks as
vacuously initialized, so iteration starts non-entry blocks at `true` and
descends to the greatest fixpoint. -/

/-- Exit fact of block `p`: its entry fact ORed with its gen bit (gen-only
transfer, no kill). -/
def block_out (gens facts : List Bool) (p : Nat) : Bool :=
  facts.getD p true || gens.getD p false

/-- Modelled from the spec: the must-analysis join (rustc runtime).  The entry
block's incoming fact is `false`; any other block's incoming fact is the AND
over its predecessors' exit facts (vacuously `true` with no predecessors). -/
def dataflow_join (blocks : List BasicBlock) (gens facts : List Bool) (b : Nat) : Bool :=
  if b = 0 then false
  else (preds blocks b).all (block_out gens facts)

/-- One pass of the fixpoint iteration: recompute every block's entry fact. -/
def dataflow_step (blocks : List BasicBlock) (gens facts : List Bool) : List Bool :=
  (List.range blocks.length).map (dataflow_join blocks gens facts)

/-- Initial entry facts: entry block `false`, all other blocks `true` (top). -/
def dataflow_init (blocks : List BasicBlock) : List Bool :=
  (List.range blocks.length).map (fun b => b != 0)

/-- Modelled from the spec: iterate the pass to convergence (rustc runtime);
the descending chain over `blocks.length` bits stabilizes within
`blocks.length + 1` passes. -/
def dataflow_facts (blocks : List BasicBlock) (gens : List Bool) : List Bool :=
  Nat.iterate (dataflow_step blocks gens) (blocks.length + 1) (dataflow_init blocks)

/-- The fact immediately before a block's terminator: the block's entry fact
pushed through the (identity) statement transfers — what
`cursor.seek(Location { block, statement_index: stmts.len() })` exposes. -/
def block_fact (bb : BasicBlock) (entry : Bool) : Bool :=
  bb.stmts.foldl (fun f s => statement_effect s f) entry

/-! ## Call-graph walker (source `check_init` / `check_init_inner`) -/

/-- The block scan of `check_init_inner`: iterate the blocks in declaration
order; `i` is the current block index (for the dataflow query), `stack` the
threaded `&mut` call stack.

* non-call terminator: `continue`;
* `Call` with `Unknown` callee: immediately `NeedsInit [span]`;
* `Call` with known callee `c`: if the incoming fact is `false` and `c` is the
  gated operation, `NeedsInit [span]`; otherwise recursively evaluate `c`, and
  on `NeedsInit spans` push this call's span onto the end and return at once.

Returns `none` when a nested evaluation ran out of fuel. -/
def scan_blocks (P : Program) (eval : FunId → List FunId → Option (InitState × List FunId))
    (facts : List Bool) : List BasicBlock → Nat → List FunId → Option (InitState × List FunId)
  | [], _, stack => some (.NotInit, stack)
  | bb :: rest, i, stack =>
    match bb.term with
    | .call .unknown sp _ => some (.NeedsInit [sp], stack)
    | .call (.known c) sp _ =>
      if !(block_fact bb (facts.getD i false)) && P.isGatedFun c then
        some (.NeedsInit [sp], stack)
      else
        match eval c stack with
        | none => none
        | some (.NeedsInit spans, stack2) => some (.NeedsInit (spans ++ [sp]), stack2)
        | some (_, stack2) => scan_blocks P eval facts rest (i + 1) stack2
    | _ => scan_blocks P eval facts rest (i + 1) stack

/-- Source `check_init_inner`: initializer tag short-circuits to `Init`
without looking at the body; a missing body yields `NotInit`; otherwise run
the dataflow over the body (the engine captures a clone of the current stack)
and scan the blocks in order. -/
def check_init_inner (P : Program)
    (eval : FunId → List FunId → Option (InitState × List FunId))
    (f : FunId) (stack : List FunId) : Option (InitState × List FunId) :=
  match P.getFun f with
  | none => some (.NotInit, stack)
  | some fn =>
    if fn.is_initializer then some (.Init, stack)
    else
      match fn.body with
      | none => some (.NotInit, stack)
      | some blocks =>
        match block_gens eval stack blocks with
        | none => none
        | some gens => scan_blocks P eval (dataflow_facts blocks gens) blocks 0 stack

/-- Source `check_init`: the cycle guard.  If `f` is already on the stack,
return `NotInit` at once without touching the stack; otherwise insert `f`,
compute via `check_init_inner`, and remove `f` before returning.  The first
argument is recursion fuel; `none` means the fuel ran out. -/
def check_init (P : Program) : Nat → FunId → List FunId → Option (InitState × List FunId)
  | 0, _, _ => none
  | fuel + 1, f, stack =>
    if f ∈ stack then some (.NotInit, stack)
    else
      match check_init_inner P (check_init P fuel) f (f :: stack) with
      | none => none
      | some (r, stack2) => some (r, stack2.erase f)

/-- Source `Pass::check_crate`: if the program has an entry point, analyze it
with a fresh empty call stack and emit one diagnostic (the span chain) when
the verdict is `NeedsInit`.  Fuel `P.funs.length + 1` is sufficient (proved
below). -/
def check_crate (P : Program) : Option (List Span) :=
  match P.entryPoint with
  | none => none
  | some m =>
    match check_init P (P.funs.length + 1) m [] with
    | some (.NeedsInit spans, _) => some spans
    | _ => none

/-- Number of program functions not yet on the call stack: the termination
measure of the walker. -/
def missing (P : Program) (stack : List FunId) : Nat :=
  ((Finset.range P.funs.length).filter (fun i => i ∉ stack)).card

/-! ## Concrete programs (the repository's UI tests and small variants) -/

/-- `tests/ui/init_before_foo4.rs` (Scenario B): `if cond { init() }; foo();`.
Functions: `0` = `main` (entry), `1` = `false_value`, `2` = `init`,
`3` = `foo`; spans `10`, `11`, `12` are the three call sites. -/
def P4 : Program :=
  { funs := [
      { is_initializer := false, is_gated := false, is_entry := true,
        body := some [
          { stmts := [], term := .call (.known 1) 10 1 },
          { stmts := [], term := .branch [2, 3] },
          { stmts := [], term := .call (.known 2) 11 3 },
          { stmts := [], term := .call (.known 3) 12 4 },
          { stmts := [], term := .ret } ] },
      { is_initializer := false, is_gated := false, is_entry := false,
        body := some [ { stmts := [], term := .ret } ] },
      { is_initializer := true, is_gated := false, is_entry := false,
        body := some [ { stmts := [], term := .ret } ] },
      { is_initializer := false, is_gated := true, is_entry := false,
        body := some [ { stmts := [], term := .ret } ] } ] }

/-- `tests/ui/init_before_foo3.rs` (Scenario A): `main { bar(); init(); }`,
`bar { foo(); }`.  Functions: `0` = `main` (entry), `1` = `bar`, `2` = `foo`,
`3` = `init`; span `22` is the `foo()` call inside `bar`, span `20` the
`bar()` call inside `main`. -/
def P3 : Program :=
  { funs := [
      { is_initializer := false, is_gated := false, is_entry := true,
        body := some [
          { stmts := [], term := .call (.known 1) 20 1 },
          { stmts := [], term := .call (.known 3) 21 2 },
          { stmts := [], term := .ret } ] },
      { is_initializer := false, is_gated := false, is_entry := false,
        body := some [
          { stmts := [], term := .call (.known 2) 22 1 },
          { stmts := [], term := .ret } ] },
      { is_initializer := false, is_gated := true, is_entry := false,
        body := some [ { stmts := [], term := .ret } ] },
      { is_initializer := true, is_gated := false, is_entry := false,
        body := some [ { stmts := [], term := .ret } ] } ] }

/-- A correct program: `main { init(); foo(); }` — no diagnostic. -/
def Pgood : Program :=
  { funs := [
      { is_initializer := false, is_gated := false, is_entry := true,
        body := some [
          { stmts := [], term := .call (.known 1) 30 1 },
          { stmts := [], term := .call (.known 2) 31 2 },
          { stmts := [], term := .ret } ] },
      { is_initializer := true, is_gated := false, is_entry := false,
        body := some [ { stmts := [], term := .ret } ] },
      { is_initializer := false, is_gated := true, is_entry := false,
        body := some [ { stmts := [], term := .ret } ] } ] }

/-- A program with no gated function at all whose entry makes one indirect
(function-pointer) call at span `7`. -/
def Pu : Program :=
  { funs := [
      { is_initializer := false, is_gated := false, is_entry := true,
        body := some [
          { stmts := [], term := .call .unknown 7 1 },
          { stmts := [], term := .ret } ] } ] }

/-- A program whose entry has no calls at all. -/
def Pempty : Program :=
  { funs := [
      { is_initializer := false, is_gated := false, is_entry := true,
        body := some [ { stmts := [], term := .ret } ] } ] }

/-! ## Frame property: the walker restores the call stack -/

/-- If every nested evaluation restores the stack it is given, the block scan
returns the stack it was given. -/
theorem scan_frame (P : Program)
    (eval : FunId → List FunId → Option (InitState × List FunId))
    (facts : List Bool)
    (heval : ∀ c s r s2, eval c s = some (r, s2) → s2 = s) :
    ∀ (bs : List BasicBlock) (i : Nat) (stack : List FunId) (r : InitState)
      (s2 : List FunId), scan_blocks P eval facts bs i stack = some (r, s2) → s2 = stack := by
  intro bs
  induction bs with
  | nil =>
    intro i stack r s2 h
    simp only [scan_blocks, Option.some.injEq, Prod.mk.injEq] at h
    exact h.2.symm
  | cons bb rest ih =>
    intro i stack r s2 h
    obtain ⟨stmts, term⟩ := bb
    cases term with
    | call callee sp tg =>
      cases callee with
      | unknown =>
        simp only [scan_blocks, Option.some.injEq, Prod.mk.injEq] at h
        exact h.2.symm
      | known c =>
        simp only [scan_blocks] at h
        split at h
        · simp only [Option.some.injEq, Prod.mk.injEq] at h
          exact h.2.symm
        · cases heq : eval c stack with
          | none => rw [heq] at h; cases h
          | some p =>
            obtain ⟨v, st2⟩ := p
            have hst2 : st2 = stack := heval c stack v st2 heq
            rw [heq] at h
            cases v with
            | Init => exact (ih (i + 1) st2 r s2 h).trans hst2
            | NotInit => exact (ih (i + 1) st2 r s2 h).trans hst2
            | NeedsInit spans =>
              simp only [Option.some.injEq, Prod.mk.injEq] at h
              exact h.2.symm.trans hst2
    | branch ts => exact ih (i + 1) stack r s2 h
    | goto t => exact ih (i + 1) stack r s2 h
    | ret => exact ih (i + 1) stack r s2 h

/-- If every nested evaluation restores the stack it is given,
`check_init_inner` returns the stack it was given. -/
theorem inner_frame (P : Program)
    (eval : FunId → List FunId → Option (InitState × List FunId))
    (heval : ∀ c s r s2, eval c s = some (r, s2) → s2 = s)
    (f : FunId) (stack : List FunId) (r : InitState) (s2 : List FunId)
    (h : check_init_inner P eval f stack = some (r, s2)) : s2 = stack := by
  unfold check_init_inner at h
  split at h
  · simp only [Option.some.injEq, Prod.mk.injEq] at h
    exact h.2.symm
  · split at h
    · simp only [Option.some.injEq, Prod.mk.injEq] at h
      exact h.2.symm
    · split at h
      · simp only [Option.some.injEq, Prod.mk.injEq] at h
        exact h.2.symm
      · split at h
        · cases h
        · exact scan_frame P eval _ heval _ 0 stack r s2 h

/-- The frame property of the walker: `check_init` hands back exactly the call
stack it received (`f` is inserted on entry and removed before returning). -/
theorem check_init_frame (P : Program) :
    ∀ (fuel : Nat) (f : FunId) (stack : List FunId) (r : InitState) (s2 : List FunId),
      check_init P fuel f stack = some (r, s2) → s2 = stack := by
  intro fuel
  induction fuel with
  | zero => intro f stack r s2 h; cases h
  | succ fuel ih =>
    intro f stack r s2 h
    rw [check_init] at h
    split at h
    · simp only [Option.some.injEq, Prod.mk.injEq] at h
      exact h.2.symm
    · cases hinner : check_init_inner P (check_init P fuel) f (f :: stack) with
      | none => rw [hinner] at h; cases h
      | some p =>
        obtain ⟨r', st2⟩ := p
        have hst2 : st2 = f :: stack :=
          inner_frame P (check_init P fuel) (fun c s r0 s0 => ih c s r0 s0) f (f :: stack) r' st2 hinner
        rw [hinner] at h
        simp only [Option.some.injEq, Prod.mk.injEq] at h
        rw [← h.2, hst2, List.erase_cons_head]

/-! ## Termination: enough fuel is never exhausted -/

/-- Descending into a function of the program that is not yet on the stack
strictly shrinks the termination measure. -/
theorem missing_cons_lt (P : Program) (f : FunId) (stack : List FunId)
    (hf : f < P.funs.length) (hnf : f ∉ stack) :
    missing P (f :: stack) < missing P stack := by
  apply Finset.card_lt_card
  rw [Finset.ssubset_iff_of_subset]
  · exact ⟨f, by simp [Finset.mem_filter, Finset.mem_range, hf, hnf], by simp⟩
  · intro x hx
    simp only [Finset.mem_filter, Finset.mem_range] at hx ⊢
    exact ⟨hx.1, fun hmem => hx.2 (List.mem_cons_of_mem _ hmem)⟩

/-- The terminator transfer never runs out of fuel when the nested evaluation
at the captured stack does not. -/
theorem terminator_effect_isSome
    (eval : FunId → List FunId → Option (InitState × List FunId))
    (stack : List FunId) (t : Terminator)
    (hsome : ∀ c, (eval c stack).isSome) :
    (terminator_effect eval stack t).isSome := by
  cases t with
  | call callee sp tg =>
    cases callee with
    | known c =>
      obtain ⟨p, hp⟩ := Option.isSome_iff_exists.mp (hsome c)
      obtain ⟨v, s2⟩ := p
      cases v <;> simp [terminator_effect, hp]
    | unknown => simp [terminator_effect]
  | branch ts => simp [terminator_effect]
  | goto t => simp [terminator_effect]
  | ret => simp [terminator_effect]

/-- `block_gens` never runs out of fuel when no per-block transfer does. -/
theorem block_gens_isSome
    (eval : FunId → List FunId → Option (InitState × List FunId))
    (stack : List FunId) (blocks : List BasicBlock)
    (h : ∀ bb ∈ blocks, (terminator_effect eval stack bb.term).isSome) :
    (block_gens eval stack blocks).isSome := by
  induction blocks with
  | nil => simp [block_gens]
  | cons bb rest ih =>
    obtain ⟨g, hg⟩ := Option.isSome_iff_exists.mp (h bb (List.mem_cons_self bb rest))
    obtain ⟨gs, hgs⟩ :=
      Option.isSome_iff_exists.mp (ih (fun b hb => h b (List.mem_cons_of_mem _ hb)))
    simp [block_gens, hg, hgs]

/-- The block scan never runs out of fuel when nested evaluations at the
entry stack neither run out of fuel nor fail to restore the stack. -/
theorem scan_isSome (P : Program)
    (eval : FunId → List FunId → Option (InitState × List FunId))
    (facts : List Bool) (stack : List FunId)
    (hsome : ∀ c, (eval c stack).isSome)
    (hframe : ∀ c s r s2, eval c s = some (r, s2) → s2 = s) :
    ∀ (bs : List BasicBlock) (i : Nat), (scan_blocks P eval facts bs i stack).isSome := by
  intro bs
  induction bs with
  | nil => intro i; simp [scan_blocks]
  | cons bb rest ih =>
    intro i
    obtain ⟨stmts, term⟩ := bb
    cases term with
    | call callee sp tg =>
      cases callee with
      | unknown => simp [scan_blocks]
      | known c =>
        simp only [scan_blocks]
        split
        · simp
        · obtain ⟨p, hp⟩ := Option.isSome_iff_exists.mp (hsome c)
          obtain ⟨v, s2⟩ := p
          have hs2 : s2 = stack := hframe c stack v s2 hp
          subst hs2
          cases v with
          | Init => rw [hp]; exact ih (i + 1)
          | NotInit => rw [hp]; exact ih (i + 1)
          | NeedsInit spans => rw [hp]; simp
    | branch ts => exact ih (i + 1)
    | goto t => exact ih (i + 1)
    | ret => exact ih (i + 1)

/-- Fuel sufficiency: with more fuel than there are program functions off the
stack, the walker always returns a verdict.  Together with the cycle guard
this is the termination argument: every recursive descent pushes a distinct
program function onto the stack. -/
theorem check_init_isSome (P : Program) :
    ∀ (fuel : Nat) (stack : List FunId) (f : FunId),
      missing P stack < fuel → (check_init P fuel f stack).isSome := by
  intro fuel
  induction fuel with
  | zero => intro stack f h; exact absurd h (Nat.not_lt_zero _)
  | succ fuel ih =>
    intro stack f h
    rw [check_init]
    split
    · simp
    · rename_i hnf
      suffices hs : (check_init_inner P (check_init P fuel) f (f :: stack)).isSome by
        obtain ⟨⟨r, st2⟩, heq⟩ := Option.isSome_iff_exists.mp hs
        rw [heq]
        simp
      cases hfn : P.getFun f with
      | none => simp [check_init_inner, hfn]
      | some fn =>
        by_cases hinit : fn.is_initializer = true
        · simp [check_init_inner, hfn, hinit]
        · cases hb : fn.body with
          | none => simp [check_init_inner, hfn, hinit, hb]
          | some blocks =>
            have hflen : f < P.funs.length := by
              by_contra hge
              have hnone : P.funs[f]? = none := List.getElem?_eq_none (Nat.le_of_not_lt hge)
              unfold Program.getFun at hfn
              rw [hnone] at hfn
              cases hfn
            have hmiss : missing P (f :: stack) < fuel :=
              Nat.lt_of_lt_of_le (missing_cons_lt P f stack hflen hnf) (Nat.lt_succ_iff.mp h)
            have hsome : ∀ c, (check_init P fuel c (f :: stack)).isSome :=
              fun c => ih (f :: stack) c hmiss
            have hbg : (block_gens (check_init P fuel) (f :: stack) blocks).isSome :=
              block_gens_isSome _ _ _
                (fun bb _ => terminator_effect_isSome _ _ _ hsome)
            obtain ⟨gens, hgens⟩ := Option.isSome_iff_exists.mp hbg
            simp only [check_init_inner, hfn, hinit, if_false, hb, hgens]
            exact scan_isSome P (check_init P fuel) (dataflow_facts blocks gens) (f :: stack)
              hsome (fun c s r s2 => check_init_frame P fuel c s r s2) blocks 0

/-! ## Call-graph reachability and gated-call-free programs -/

/-- The statically known callees of a block (empty for non-calls and for
indirect calls). -/
def blockCallees (bb : BasicBlock) : List FunId :=
  match bb.term with
  | .call (.known c) _ _ => [c]
  | _ => []

/-- `g` contains a statically known call to `c`: the call-graph edge. -/
def callsFun (P : Program) (g c : FunId) : Bool :=
  match P.getFun g with
  | some fn =>
    match fn.body with
    | some bs => bs.any (fun bb => (blockCallees bb).contains c)
    | none => false
  | none => false

/-- `Reaches P f g`: `g` is reachable from `f` along statically known call
edges (reflexive-transitive closure of `callsFun`). -/
inductive Reaches (P : Program) : FunId → FunId → Prop
  | refl (f : FunId) : Reaches P f f
  | step {f g h : FunId} : Reaches P f g → callsFun P g h = true → Reaches P f h

theorem reaches_trans (P : Program) {a b c : FunId}
    (h1 : Reaches P a b) (h2 : Reaches P b c) : Reaches P a c := by
  induction h2 with
  | refl => exact h1
  | step _ hcall ih => exact Reaches.step ih hcall

/-- A block is clean when its terminator is neither an indirect call nor a
call to the gated operation. -/
def cleanBlock (P : Program) (bb : BasicBlock) : Bool :=
  match bb.term with
  | .call (.known c) _ _ => !(P.isGatedFun c)
  | .call .unknown _ _ => false
  | _ => true

/-- A function is clean when every block of its body (if any) is clean. -/
def cleanFun (P : Program) (g : FunId) : Bool :=
  match P.getFun g with
  | some fn =>
    match fn.body with
    | some bs => bs.all (cleanBlock P)
    | none => true
  | none => true

/-- The scan of a list of clean blocks whose callees all evaluate to
non-violating verdicts never returns a violation. -/
theorem scan_clean (P : Program)
    (eval : FunId → List FunId → Option (InitState × List FunId))
    (facts : List Bool) :
    ∀ (bs : List BasicBlock),
      (∀ bb ∈ bs, cleanBlock P bb = true) →
      (∀ bb ∈ bs, ∀ c sp tg, bb.term = .call (.known c) sp tg →
        ∀ s r s2, eval c s = some (r, s2) → ∀ spans, r ≠ .NeedsInit spans) →
      ∀ (i : Nat) (stack : List FunId) (r : InitState) (s2 : List FunId),
        scan_blocks P eval facts bs i stack = some (r, s2) →
        ∀ spans, r ≠ .NeedsInit spans := by
  intro bs
  induction bs with
  | nil =>
    intro _ _ i stack r s2 h spans
    simp only [scan_blocks, Option.some.injEq, Prod.mk.injEq] at h
    rw [← h.1]
    simp
  | cons bb rest ih =>
    intro hclean heval i stack r s2 h spans
    obtain ⟨stmts, term⟩ := bb
    cases term with
    | call callee sp tg =>
      cases callee with
      | unknown =>
        have := hclean _ (List.mem_cons_self _ rest)
        simp [cleanBlock] at this
      | known c =>
        simp only [scan_blocks] at h
        split at h
        · rename_i hcond
          rw [Bool.and_eq_true] at hcond
          have hgated : P.isGatedFun c = true := hcond.2
          have := hclean _ (List.mem_cons_self _ rest)
          simp [cleanBlock, hgated] at this
        · cases heq : eval c stack with
          | none => rw [heq] at h; cases h
          | some p =>
            obtain ⟨v, st2⟩ := p
            rw [heq] at h
            cases v with
            | Init =>
              exact ih (fun b hb => hclean b (List.mem_cons_of_mem _ hb))
                (fun b hb => heval b (List.mem_cons_of_mem _ hb)) (i + 1) st2 r s2 h spans
            | NotInit =>
              exact ih (fun b hb => hclean b (List.mem_cons_of_mem _ hb))
                (fun b hb => heval b (List.mem_cons_of_mem _ hb)) (i + 1) st2 r s2 h spans
            | NeedsInit spans2 =>
              have hne := heval _ (List.mem_cons_self _ rest) c sp tg rfl stack
                (.NeedsInit spans2) st2 heq spans2
              exact absurd rfl hne
    | branch ts =>
      exact ih (fun b hb => hclean b (List.mem_cons_of_mem _ hb))
        (fun b hb => heval b (List.mem_cons_of_mem _ hb)) (i + 1) stack r s2 h spans
    | goto t =>
      exact ih (fun b hb => hclean b (List.mem_cons_of_mem _ hb))
        (fun b hb => heval b (List.mem_cons_of_mem _ hb)) (i + 1) stack r s2 h spans
    | ret =>
      exact ih (fun b hb => hclean b (List.mem_cons_of_mem _ hb))
        (fun b hb => heval b (List.mem_cons_of_mem _ hb)) (i + 1) stack r s2 h spans

/-- If every function reachable from `f` along known call edges is clean (no
indirect calls, no calls to the gated operation), the walker never returns a
violation for `f`. -/
theorem check_init_clean (P : Program) :
    ∀ (fuel : Nat) (f : FunId) (stack : List FunId) (r : InitState) (s2 : List FunId),
      (∀ g, Reaches P f g → cleanFun P g = true) →
      check_init P fuel f stack = some (r, s2) → ∀ spans, r ≠ .NeedsInit spans := by
  intro fuel
  induction fuel with
  | zero => intro f stack r s2 _ h; cases h
  | succ fuel ih =>
    intro f stack r s2 hreach h spans
    rw [check_init] at h
    split at h
    · simp only [Option.some.injEq, Prod.mk.injEq] at h
      rw [← h.1]
      simp
    · cases hinner : check_init_inner P (check_init P fuel) f (f :: stack) with
      | none => rw [hinner] at h; cases h
      | some p =>
        obtain ⟨r', st2⟩ := p
        rw [hinner] at h
        simp only [Option.some.injEq, Prod.mk.injEq] at h
        rw [← h.1]
        unfold check_init_inner at hinner
        cases hfn : P.getFun f with
        | none =>
          rw [hfn] at hinner
          simp only [Option.some.injEq, Prod.mk.injEq] at hinner
          rw [← hinner.1]
          simp
        | some fn =>
          rw [hfn] at hinner
          simp only [] at hinner
          by_cases hinit : fn.is_initializer = true
          · rw [if_pos hinit] at hinner
            simp only [Option.some.injEq, Prod.mk.injEq] at hinner
            rw [← hinner.1]
            simp
          · rw [if_neg hinit] at hinner
            cases hb : fn.body with
            | none =>
              rw [hb] at hinner
              simp only [Option.some.injEq, Prod.mk.injEq] at hinner
              rw [← hinner.1]
              simp
            | some blocks =>
              rw [hb] at hinner
              simp only [] at hinner
              cases hbg : block_gens (check_init P fuel) (f :: stack) blocks with
              | none => rw [hbg] at hinner; cases hinner
              | some gens =>
                rw [hbg] at hinner
                have hcleanf : cleanFun P f = true := hreach f (Reaches.refl f)
                have hcleanb : ∀ bb ∈ blocks, cleanBlock P bb = true := by
                  unfold cleanFun at hcleanf
                  rw [hfn] at hcleanf
                  simp only [] at hcleanf
                  rw [hb] at hcleanf
                  simp only [] at hcleanf
                  exact fun bb hbb => List.all_eq_true.mp hcleanf bb hbb
                refine scan_clean P (check_init P fuel) (dataflow_facts blocks gens) blocks
                  hcleanb ?_ 0 (f :: stack) r' st2 hinner spans
                intro bb hbb c sp tg hterm s r0 s0 heq spans0
                have hcall : callsFun P f c = true := by
                  unfold callsFun
                  rw [hfn]
                  simp only []
                  rw [hb]
                  simp only []
                  refine List.any_eq_true.mpr ⟨bb, hbb, ?_⟩
                  simp [blockCallees, hterm]
                have hreach2 : ∀ g, Reaches P c g → cleanFun P g = true := fun g hg =>
                  hreach g (reaches_trans P (Reaches.step (Reaches.refl f) hcall) hg)
                exact ih c s r0 s0 hreach2 heq spans0

/-! ## More concrete programs for witnesses -/

/-- A tagged initializer whose own body misuses the API: it calls the gated
function (id 1) before anything else. -/
def Pinitbad : Program :=
  { funs := [
      { is_initializer := true, is_gated := false, is_entry := false,
        body := some [
          { stmts := [], term := .call (.known 1) 50 1 },
          { stmts := [], term := .ret } ] },
      { is_initializer := false, is_gated := true, is_entry := false,
        body := some [ { stmts := [], term := .ret } ] } ] }

/-- A single external function: not the initializer, body unavailable. -/
def Pext : Program :=
  { funs := [
      { is_initializer := false, is_gated := false, is_entry := false,
        body := none } ] }

/-! ## The claims -/

/-- C3: `evaluate` terminates on every program, cyclic call graphs included:
with fuel exceeding the number of program functions off the stack the walker
always returns a verdict; and when `f` is already a member of the call stack
it returns `NotInit` (`NoInformation`) immediately, with the stack untouched
and without analyzing further, so `Init` (`EstablishesInit`) is never produced
through such a back-edge. -/
theorem claim_C3 :
    (∀ (P : Program) (fuel : Nat) (stack : List FunId) (f : FunId),
      missing P stack < fuel → (check_init P fuel f stack).isSome) ∧
    (∀ (P : Program) (fuel : Nat) (f : FunId) (stack : List FunId), f ∈ stack →
      check_init P (fuel + 1) f stack = some (.NotInit, stack)) := by
  constructor
  · exact fun P fuel stack f h => check_init_isSome P fuel stack f h
  · intro P fuel f stack hf
    rw [check_init, if_pos hf]

theorem claim_C3_witness :
    (check_init Pgood 4 0 []).isSome ∧ check_init Pgood 1 0 [0] = some (.NotInit, [0]) :=
  ⟨claim_C3.1 Pgood 4 [] 0 (by decide), claim_C3.2 Pgood 0 0 [0] (by decide)⟩

/-- C4: a function tagged as the initializer that is not on the call stack
evaluates to `Init` with no look at its body: the conclusion holds for every
`fn.body` — present, absent, or itself misusing the API. -/
theorem claim_C4 (P : Program) (fuel : Nat) (f : FunId) (stack : List FunId)
    (fn : Function) (hfn : P.getFun f = some fn) (hinit : fn.is_initializer = true)
    (hf : f ∉ stack) :
    check_init P (fuel + 1) f stack = some (.Init, stack) := by
  rw [check_init, if_neg hf]
  unfold check_init_inner
  rw [hfn]
  simp only []
  rw [if_pos hinit]
  simp [List.erase_cons_head]

theorem claim_C4_witness :
    check_init Pinitbad 1 0 [] = some (.Init, []) :=
  claim_C4 Pinitbad 0 0 []
    { is_initializer := true, is_gated := false, is_entry := false,
      body := some [
        { stmts := [], term := .call (.known 1) 50 1 },
        { stmts := [], term := .ret } ] }
    rfl rfl (by decide)

/-- C5: the two unresolved cases are treated asymmetrically.  A known callee
that is not the initializer and has no available body evaluates to `NotInit`
(`NoInformation`); whereas when the scan of the enclosing function meets a
`Call` whose callee is not statically resolvable it returns `Violates` at
that call's location immediately, for every dataflow fact vector. -/
theorem claim_C5 :
    (∀ (P : Program) (fuel : Nat) (f : FunId) (stack : List FunId) (fn : Function),
      P.getFun f = some fn → fn.is_initializer = false → fn.body = none →
      f ∉ stack → check_init P (fuel + 1) f stack = some (.NotInit, stack)) ∧
    (∀ (P : Program) (eval : FunId → List FunId → Option (InitState × List FunId))
      (facts : List Bool) (stmts : List Stmt) (sp : Span) (tg : Nat)
      (rest : List BasicBlock) (i : Nat) (stack : List FunId),
      scan_blocks P eval facts
        ({ stmts := stmts, term := .call .unknown sp tg } :: rest) i stack
        = some (.NeedsInit [sp], stack)) := by
  constructor
  · intro P fuel f stack fn hfn hinit hbody hf
    rw [check_init, if_neg hf]
    unfold check_init_inner
    rw [hfn]
    simp only []
    rw [hinit]
    simp only [Bool.false_eq_true, if_false]
    rw [hbody]
    simp [List.erase_cons_head]
  · intro P eval facts stmts sp tg rest i stack
    rfl

theorem claim_C5_witness :
    check_init Pext 1 0 [] = some (.NotInit, []) ∧
    scan_blocks Pext (fun _ s => some (.NotInit, s)) []
      [{ stmts := [], term := .call .unknown 3 0 }] 0 [] = some (.NeedsInit [3], []) :=
  ⟨claim_C5.1 Pext 0 0 []
      { is_initializer := false, is_gated := false, is_entry := false, body := none }
      rfl rfl rfl (by decide),
   claim_C5.2 Pext (fun _ s => some (.NotInit, s)) [] [] 3 0 [] 0 []⟩

/-- C8: the call-stack discipline.  `check_init` hands back exactly the stack
it received — `f` is inserted on entering a non-cyclic visit and removed
before returning; the block scan, given any stack-restoring evaluator,
likewise returns its input stack, so one visit never leaks membership into
sibling branches of the search; and since the cycle guard pushes `f` only
when `f` is absent, the stack never acquires duplicates. -/
theorem claim_C8 :
    (∀ (P : Program) (fuel : Nat) (f : FunId) (stack : List FunId)
      (r : InitState) (s2 : List FunId),
      check_init P fuel f stack = some (r, s2) → s2 = stack) ∧
    (∀ (P : Program) (eval : FunId → List FunId → Option (InitState × List FunId))
      (facts : List Bool) (bs : List BasicBlock) (i : Nat) (stack : List FunId)
      (r : InitState) (s2 : List FunId),
      (∀ c s r0 s0, eval c s = some (r0, s0) → s0 = s) →
      scan_blocks P eval facts bs i stack = some (r, s2) → s2 = stack) ∧
    (∀ (f : FunId) (stack : List FunId), f ∉ stack → stack.Nodup → (f :: stack).Nodup) := by
  refine ⟨fun P fuel f stack r s2 h => check_init_frame P fuel f stack r s2 h,
    fun P eval facts bs i stack r s2 heval h => scan_frame P eval facts heval bs i stack r s2 h,
    fun f stack hf hn => List.nodup_cons.mpr ⟨hf, hn⟩⟩

theorem claim_C8_witness :
    ([5] : List FunId) = [5] ∧ ([0, 5] : List FunId).Nodup :=
  ⟨claim_C8.1 Pgood 4 0 [5] .NotInit [5] (by decide),
   claim_C8.2.2 0 [5] (by decide) (by decide)⟩

/-- C1: the dataflow join is a *must* join — the incoming fact of a non-entry
block is the logical AND over its predecessors' exit facts, so one
predecessor whose exit fact is `false` forces the joined fact to `false` —
and on `P4` (`if cond { init() }; foo();`, the repository's
`init_before_foo4.rs`) analyzing the entry point yields a violation at the
gated call site: the diagnostic is emitted with span list `[12]`, the span of
the unconditional `foo()` call. -/
theorem claim_C1 :
    (∀ (blocks : List BasicBlock) (gens facts : List Bool) (b p : Nat), b ≠ 0 →
      p ∈ preds blocks b → block_out gens facts p = false →
      dataflow_join blocks gens facts b = false) ∧
    check_crate P4 = some [12] := by
  constructor
  · intro blocks gens facts b p hb hp hout
    unfold dataflow_join
    rw [if_neg hb, List.all_eq_false]
    exact ⟨p, hp, by simp [hout]⟩
  · rfl

theorem claim_C1_witness :
    dataflow_join [{ stmts := [], term := .goto 1 }, { stmts := [], term := .ret }]
      [false, false] [false, false] 1 = false ∧ check_crate P4 = some [12] :=
  ⟨claim_C1.1 [{ stmts := [], term := .goto 1 }, { stmts := [], term := .ret }]
      [false, false] [false, false] 1 0 (by decide) (by decide) (by decide),
   claim_C1.2⟩

/-- C2: when the block scan finds that the recursive evaluation of a known
callee returns a violation, it appends the current call site's span to the
*end* of the span list and returns at once — the result is the same for any
tail of remaining blocks — and on `P3` (the repository's
`init_before_foo3.rs`: entry calls `bar`, `bar` calls `foo`, entry calls
`init` only afterwards) the diagnostic's span list is ordered innermost
first: `[22, 20]` — the `foo()` call inside `bar`, then the `bar()` call in
the entry point. -/
theorem claim_C2 :
    (∀ (P : Program) (eval : FunId → List FunId → Option (InitState × List FunId))
      (facts : List Bool) (stmts : List Stmt) (c : FunId) (sp : Span) (tg : Nat)
      (rest rest' : List BasicBlock) (i : Nat) (stack : List FunId)
      (spans : List Span) (stack2 : List FunId),
      (!(block_fact { stmts := stmts, term := .call (.known c) sp tg } (facts.getD i false))
        && P.isGatedFun c) = false →
      eval c stack = some (.NeedsInit spans, stack2) →
      scan_blocks P eval facts ({ stmts := stmts, term := .call (.known c) sp tg } :: rest)
          i stack = some (.NeedsInit (spans ++ [sp]), stack2) ∧
      scan_blocks P eval facts ({ stmts := stmts, term := .call (.known c) sp tg } :: rest')
          i stack = some (.NeedsInit (spans ++ [sp]), stack2)) ∧
    check_crate P3 = some [22, 20] := by
  constructor
  · intro P eval facts stmts c sp tg rest rest' i stack spans stack2 hcond heval
    constructor <;>
      simp only [scan_blocks, hcond, Bool.false_eq_true, if_false, heval]
  · rfl

theorem claim_C2_witness :
    scan_blocks Pgood (fun _ s => some (.NeedsInit [9], s)) [false]
        [{ stmts := [], term := .call (.known 1) 4 1 }] 0 []
      = some (.NeedsInit [9, 4], []) ∧ check_crate P3 = some [22, 20] :=
  ⟨(claim_C2.1 Pgood (fun _ s => some (.NeedsInit [9], s)) [false] [] 1 4 1 [] [] 0 []
      [9] [] (by decide) rfl).1,
   claim_C2.2⟩

/-- C6: at a `Call` terminator with a known callee the scan consults the
incoming dataflow fact — the block's entry fact carried unchanged through the
identity statement transfers, the entry fact of a non-entry block being the
AND-join over its predecessors' exit facts, computed before this terminator's
own transfer — and when that fact is `false` and the callee is tagged as the
gated operation, the scan returns `Violates` carrying exactly this call's
location. -/
theorem claim_C6 :
    (∀ (P : Program) (eval : FunId → List FunId → Option (InitState × List FunId))
      (facts : List Bool) (stmts : List Stmt) (c : FunId) (sp : Span) (tg : Nat)
      (rest : List BasicBlock) (i : Nat) (stack : List FunId),
      block_fact { stmts := stmts, term := .call (.known c) sp tg } (facts.getD i false)
        = false →
      P.isGatedFun c = true →
      scan_blocks P eval facts ({ stmts := stmts, term := .call (.known c) sp tg } :: rest)
          i stack = some (.NeedsInit [sp], stack)) ∧
    (∀ (bb : BasicBlock) (entry : Bool), block_fact bb entry = entry) ∧
    (∀ (blocks : List BasicBlock) (gens facts : List Bool) (b : Nat), b ≠ 0 →
      dataflow_join blocks gens facts b = (preds blocks b).all (block_out gens facts)) := by
  refine ⟨?_, ?_, ?_⟩
  · intro P eval facts stmts c sp tg rest i stack hfact hgated
    simp only [scan_blocks, hfact, hgated, Bool.not_false, Bool.and_self, if_true]
  · intro bb entry
    unfold block_fact statement_effect
    induction bb.stmts with
    | nil => rfl
    | cons s l ih => exact ih
  · intro blocks gens facts b hb
    unfold dataflow_join
    rw [if_neg hb]

theorem claim_C6_witness :
    scan_blocks P3 (fun _ s => some (.NotInit, s)) [false]
        [{ stmts := [], term := .call (.known 2) 22 1 }] 0 [1, 0]
      = some (.NeedsInit [22], [1, 0]) ∧
    block_fact { stmts := [Stmt.nonCall], term := .ret } true = true ∧
    dataflow_join [{ stmts := [], term := .goto 1 }, { stmts := [], term := .ret }]
        [true, false] [false, true] 1
      = (preds [{ stmts := [], term := .goto 1 }, { stmts := [], term := .ret }] 1).all
          (block_out [true, false] [false, true]) :=
  ⟨claim_C6.1 P3 (fun _ s => some (.NotInit, s)) [false] [] 2 22 1 [] 0 [1, 0]
      (by decide) (by decide),
   claim_C6.2.1 { stmts := [Stmt.nonCall], term := .ret } true,
   claim_C6.2.2 [{ stmts := [], term := .goto 1 }, { stmts := [], term := .ret }]
      [true, false] [false, true] 1 (by decide)⟩

/-- C7: the transfer is gen-only.  Statements are the identity transfer;
terminators that are not statically resolved calls never gen; a `Call` with a
known callee gens exactly when the nested evaluation returns `Init`; the exit
fact of a block is its entry fact ORed with its gen bit, so an entry fact of
`true` is never lowered; and along any path of blocks a fact once `true`
stays `true` — there is no kill. -/
theorem claim_C7 :
    (∀ (s : Stmt) (fact : Bool), statement_effect s fact = fact) ∧
    (∀ (eval : FunId → List FunId → Option (InitState × List FunId))
      (stack : List FunId) (t : Terminator),
      (∀ c sp tg, t ≠ .call (.known c) sp tg) →
      terminator_effect eval stack t = some false) ∧
    (∀ (eval : FunId → List FunId → Option (InitState × List FunId))
      (stack : List FunId) (c : FunId) (sp : Span) (tg : Nat) (v : InitState)
      (s2 : List FunId), eval c stack = some (v, s2) →
      terminator_effect eval stack (.call (.known c) sp tg)
        = some (decide (v = .Init))) ∧
    (∀ (gens facts : List Bool) (p : Nat), facts.getD p true = true →
      block_out gens facts p = true) ∧
    (∀ (gens : List Bool) (path : List Nat),
      path.foldl (fun fact p => fact || gens.getD p false) true = true) := by
  refine ⟨?_, ?_, ?_, ?_, ?_⟩
  · intro s fact; rfl
  · intro eval stack t ht
    cases t with
    | call callee sp tg =>
      cases callee with
      | known c => exact absurd rfl (ht c sp tg)
      | unknown => rfl
    | branch ts => rfl
    | goto tg => rfl
    | ret => rfl
  · intro eval stack c sp tg v s2 heval
    cases v <;> simp [terminator_effect, heval]
  · intro gens facts p hp
    unfold block_out
    rw [hp, Bool.true_or]
  · intro gens path
    induction path with
    | nil => rfl
    | cons p rest ih => simpa using ih

theorem claim_C7_witness :
    statement_effect Stmt.nonCall false = false ∧
    terminator_effect (fun _ s => some (.Init, s)) [] .ret = some false ∧
    terminator_effect (fun _ s => some (.NotInit, s)) [] (.call (.known 0) 1 1)
      = some false ∧
    block_out [false] [true] 0 = true :=
  ⟨claim_C7.1 Stmt.nonCall false,
   claim_C7.2.1 (fun _ s => some (.Init, s)) [] .ret (by intro c sp tg; simp),
   claim_C7.2.2.1 (fun _ s => some (.NotInit, s)) [] 0 1 1 .NotInit [] rfl,
   claim_C7.2.2.2.1 [false] [true] 0 (by decide)⟩

/-- C9 fails as stated: in `Pu` no function at all is tagged as the gated
operation — so no call to the gated operation is reachable from the entry
point — yet the entry's indirect (function-pointer) call makes the analysis
emit a diagnostic, at that call's span `7`. -/
theorem claim_C9_counterexample :
    Pu.funs.all (fun fn => !fn.is_gated) = true ∧ check_crate Pu = some [7] :=
  ⟨rfl, rfl⟩

/-- C9 (amended): for every program in which no call to the gated operation
and no indirect (unknown-callee) call is reachable from the entry point along
statically known call edges, no diagnostic is produced. -/
theorem claim_C9_amended (P : Program) (m : FunId) (hm : P.entryPoint = some m)
    (hclean : ∀ g, Reaches P m g → cleanFun P g = true) :
    check_crate P = none := by
  unfold check_crate
  rw [hm]
  simp only []
  cases hc : check_init P (P.funs.length + 1) m [] with
  | none => rfl
  | some p =>
    obtain ⟨r, s⟩ := p
    cases r with
    | Init => rfl
    | NotInit => rfl
    | NeedsInit spans =>
      exact absurd rfl (check_init_clean P (P.funs.length + 1) m [] _ s hclean hc spans)

theorem claim_C9_amended_witness : check_crate Pempty = none :=
  claim_C9_amended Pempty 0 rfl (fun g _ => by
    match g with
    | 0 => rfl
    | Nat.succ n => rfl)

/-- C10: verdicts from the nested evaluation inside the terminator transfer
are used only through the test "is it `Init`": two evaluators agreeing on
that test produce identical gen vectors, so a `Violates` (or `NotInit`)
verdict arising inside the dataflow neither sets the fact nor carries its
span list anywhere — a nested non-`Init` verdict leaves the gen bit `false`,
and violations can reach a diagnostic only through the walker's block scan. -/
theorem claim_C10 :
    (∀ (eval eval' : FunId → List FunId → Option (InitState × List FunId))
      (stack : List FunId) (blocks : List BasicBlock),
      (∀ c, Option.map (fun p : InitState × List FunId => decide (p.1 = .Init))
              (eval c stack)
          = Option.map (fun p : InitState × List FunId => decide (p.1 = .Init))
              (eval' c stack)) →
      block_gens eval stack blocks = block_gens eval' stack blocks) ∧
    (∀ (eval : FunId → List FunId → Option (InitState × List FunId))
      (stack : List FunId) (c : FunId) (sp : Span) (tg : Nat) (v : InitState)
      (s2 : List FunId), eval c stack = some (v, s2) → v ≠ .Init →
      terminator_effect eval stack (.call (.known c) sp tg) = some false) := by
  constructor
  · intro eval eval' stack blocks hagree
    have hterm : ∀ t, terminator_effect eval stack t = terminator_effect eval' stack t := by
      intro t
      cases t with
      | call callee sp tg =>
        cases callee with
        | known c =>
          have hc := hagree c
          simp only [terminator_effect]
          cases h1 : eval c stack with
          | none =>
            rw [h1] at hc
            cases h2 : eval' c stack with
            | none => rfl
            | some p' => rw [h2] at hc; simp at hc
          | some p =>
            rw [h1] at hc
            cases h2 : eval' c stack with
            | none => rw [h2] at hc; simp at hc
            | some p' =>
              rw [h2] at hc
              obtain ⟨v, s⟩ := p
              obtain ⟨v', s'⟩ := p'
              simp only [Option.map_some', Option.some.injEq] at hc
              cases v <;> cases v' <;> first | rfl | simp at hc
        | unknown => rfl
      | branch ts => rfl
      | goto tg => rfl
      | ret => rfl
    induction blocks with
    | nil => rfl
    | cons bb rest ih =>
      unfold block_gens
      rw [hterm bb.term, ih]
  · intro eval stack c sp tg v s2 heval hne
    cases v with
    | Init => exact absurd rfl hne
    | NotInit => simp [terminator_effect, heval]
    | NeedsInit spans => simp [terminator_effect, heval]

theorem claim_C10_witness :
    block_gens (fun _ s => some (.NeedsInit [5], s)) []
        [{ stmts := [], term := .call (.known 0) 1 1 }]
      = block_gens (fun _ s => some (.NotInit, s)) []
          [{ stmts := [], term := .call (.known 0) 1 1 }] ∧
    terminator_effect (fun _ s => some (.NeedsInit [5], s)) [] (.call (.known 0) 1 1)
      = some false :=
  ⟨claim_C10.1 (fun _ s => some (.NeedsInit [5], s)) (fun _ s => some (.NotInit, s)) []
      [{ stmts := [], term := .call (.known 0) 1 1 }] (fun _ => rfl),
   claim_C10.2 (fun _ s => some (.NeedsInit [5], s)) [] 0 1 1 (.NeedsInit [5]) [] rfl
      (by simp)⟩

end InitBeforeFoo
